import Mathlib

/-!
Formal model of the glossary-project orchestration core.

The definitions below are a shallow embedding of the Python sources:
  - src/api-gateway/gateway/server.py   (GatewayServer: orchestration)
  - src/api-gateway/gateway/seeder.py   (call_with_retry, run_seeder)
  - src/api-gateway/run.py              (seed_in_background)
  - src/glossary-service/glossary/service.py (GlossaryServicer)
  - src/graph-service/graph/service.py  (GraphServicer)

Backend RPC calls are modelled as explicit functions `String → Except
StatusCode _`; the SQLite-backed stores are modelled as lists with the
uniqueness constraints of their schemas enforced by the service-layer
checks that the source performs (duplicate detection raising
IntegrityError becomes an explicit membership test).  Orchestration
functions additionally return the list of term identifiers they pass to
the glossary GetTerm backend call, so that call-count properties can be
stated.
-/

/-- The gRPC status codes used by the system (spec section 6 fixed error set). -/
inductive StatusCode where
  | invalidArgument
  | notFound
  | alreadyExists
  | internal
  | unavailable
  deriving DecidableEq

/-- glossary_pb2.Term: identifier, unique name, definition text. -/
structure Term where
  id : String
  name : String
  definition : String
  deriving DecidableEq

/-- graph_pb2.Relationship: a directed, kind-labeled edge between term ids. -/
structure Relationship where
  from_term_id : String
  to_term_id : String
  type : Nat
  deriving DecidableEq

/-- gateway_pb2.RelationshipDetails: an enriched relationship record. -/
structure RelationshipDetails where
  from_term_id : String
  to_term_id : String
  type : Nat
  from_term_name : String
  to_term_name : String
  deriving DecidableEq

/-- gateway_pb2.TermDetails: a term plus its enriched relationships. -/
structure TermDetails where
  term : Term
  relationships : List RelationshipDetails
  deriving DecidableEq

/-- gateway_pb2.Node of the mind map. -/
structure Node where
  id : String
  name : String
  definition : String
  deriving DecidableEq

/-- gateway_pb2.Edge of the mind map. -/
structure Edge where
  from_id : String
  to_id : String
  label : String
  deriving DecidableEq

/-- gateway_pb2.GetMindMapForTermResponse. -/
structure GetMindMapForTermResponse where
  nodes : List Node
  edges : List Edge
  deriving DecidableEq

/-- Modelled from the spec: the relationship-kind enumeration
(graph_pb2.RelationshipType) whose protobuf definition is not among the
sources; only its name-to-value table is used.  Spec section 3 names the
kinds RELATED_TO, DEPENDS_ON, IS_A and an UNKNOWN fallback; protobuf
enums assign the default value 0 to the first (UNKNOWN) entry and
consecutive values to the rest.  This list models
graph_pb2.RelationshipType.items(). -/
def RelationshipType.items : List (String × Nat) :=
  [("UNKNOWN", 0), ("RELATED_TO", 1), ("DEPENDS_ON", 2), ("IS_A", 3)]

/-- server.py lines 236-238: the inverted kind table
`{v : k for k, v in graph_pb2.RelationshipType.items()}` as a function
from values to names. -/
def relationship_type_map (v : Nat) : Option String :=
  (RelationshipType.items.find? (fun p => p.2 == v)).map (fun p => p.1)

/-- server.py line 243: `relationship_type_map.get(r.type, "UNKNOWN")`. -/
def edgeLabel (v : Nat) : String :=
  (relationship_type_map v).getD "UNKNOWN"

/-- seeder.py lines 58-60: `getattr(graph_pb2, type_str, graph_pb2.UNKNOWN)`,
the name-to-value direction of the kind table with UNKNOWN (0) fallback. -/
def get_relationship_type_enum (type_str : String) : Nat :=
  ((RelationshipType.items.find? (fun p => p.1 == type_str)).map (fun p => p.2)).getD 0

/-- `set.add`: Python set insertion, modelled as a duplicate-free list. -/
def addId (s : List String) (x : String) : List String :=
  if x ∈ s then s else s ++ [x]

/-- server.py lines 141-144: the set of endpoint ids of the returned
relationships. -/
def related_ids (rels : List Relationship) : List String :=
  rels.foldl (fun s r => addId (addId s r.from_term_id) r.to_term_id) []

/-- server.py lines 224-227: `{request.term_id}` unioned with both endpoints
of every relationship. -/
def all_term_ids (term_id : String) (rels : List Relationship) : List String :=
  rels.foldl (fun s r => addId (addId s r.from_term_id) r.to_term_id) [term_id]

/-- server.py lines 93-118, GatewayServer._get_term_lookup: one glossary
GetTerm call per identifier in the set; a failed lookup is logged and
omitted from the resulting map (insertion order preserved). -/
def get_term_lookup (fetch : String → Except StatusCode Term) :
    List String → List (String × Term)
  | [] => []
  | id :: rest =>
    match fetch id with
    | Except.ok t => (id, t) :: get_term_lookup fetch rest
    | Except.error _ => get_term_lookup fetch rest

/-- Key lookup in the term map (Python dict access by term id). -/
def lookupId (m : List (String × Term)) (k : String) : Option Term :=
  (m.find? (fun p => p.1 == k)).map (fun p => p.2)

/-- server.py lines 146-148: the term lookup built from the endpoint set,
with the already-fetched central term added afterwards when its own lookup
did not return it (`if term.id not in term_lookup: term_lookup[term.id] = term`). -/
def enrichLookup (fetch : String → Except StatusCode Term) (term : Term)
    (rels : List Relationship) : List (String × Term) :=
  let base := get_term_lookup fetch (related_ids rels)
  if (lookupId base term.id).isSome then base else base ++ [(term.id, term)]

/-- server.py lines 150-164: emit an enriched record for a relationship only
when both endpoint terms are present in the lookup map. -/
def enrichRelationships (fetch : String → Except StatusCode Term) (term : Term)
    (rels : List Relationship) : List RelationshipDetails :=
  rels.filterMap (fun r =>
    match lookupId (enrichLookup fetch term rels) r.from_term_id,
          lookupId (enrichLookup fetch term rels) r.to_term_id with
    | some ft, some tt =>
      some ⟨r.from_term_id, r.to_term_id, r.type, ft.name, tt.name⟩
    | _, _ => none)

/-- server.py lines 120-173, GatewayServer._get_term_details.  `fetch` is
glossary GetTerm, `relsFetch` is graph GetRelationshipsForTerm (called with
term.id).  Second component: the ids passed to glossary GetTerm.  Only the
graph call can raise out of the try block (the lookup helper swallows its
own RPC errors), so the except branch is the relsFetch error case. -/
def get_term_details (fetch : String → Except StatusCode Term)
    (relsFetch : String → Except StatusCode (List Relationship))
    (term : Term) : TermDetails × List String :=
  match relsFetch term.id with
  | Except.error _ => (⟨term, []⟩, [])
  | Except.ok rels =>
    if rels.isEmpty then (⟨term, []⟩, [])
    else (⟨term, enrichRelationships fetch term rels⟩, related_ids rels)

/-- server.py lines 175-185, GatewayServer.GetTerm: fetch the central term
from the glossary, then enrich it; a failed central fetch propagates the
backend error code.  Second component: all ids passed to glossary GetTerm
during the orchestration call, central fetch first. -/
def GatewayServer.GetTerm (fetch : String → Except StatusCode Term)
    (relsFetch : String → Except StatusCode (List Relationship))
    (term_id : String) : Except StatusCode TermDetails × List String :=
  match fetch term_id with
  | Except.error e => (Except.error e, [term_id])
  | Except.ok term =>
    let d := get_term_details fetch relsFetch term
    (Except.ok d.1, term_id :: d.2)

/-- server.py lines 214-251, GatewayServer.GetMindMapForTerm.  A failed
relationship fetch propagates the backend error code (handle_rpc_error,
lines 24-29, copies e.code() onto the response context).  Second
component: the ids passed to glossary GetTerm. -/
def GatewayServer.GetMindMapForTerm (fetch : String → Except StatusCode Term)
    (relsFetch : String → Except StatusCode (List Relationship))
    (term_id : String) : Except StatusCode GetMindMapForTermResponse × List String :=
  match relsFetch term_id with
  | Except.error e => (Except.error e, [])
  | Except.ok rels =>
    let ids := all_term_ids term_id rels
    let term_lookup := get_term_lookup fetch ids
    let nodes := term_lookup.map (fun p => Node.mk p.2.id p.2.name p.2.definition)
    let edges := rels.map (fun r =>
      Edge.mk r.from_term_id r.to_term_id (edgeLabel r.type))
    (Except.ok ⟨nodes, edges⟩, ids)

/-- seeder.py lines 85-104, the body of the `for attempt in range(max_retries)`
loop of _call_with_retry, iterating over the list of attempt indices.
`rpc_call n` is the outcome of the call on attempt index n.  Returns the
loop result (`none` = the loop fell through, Python returns None) and the
number of attempts made. -/
def retryGo (rpc_call : Nat → Except StatusCode α) (max_retries : Nat) :
    List Nat → Option (Except StatusCode α) × Nat
  | [] => (none, 0)
  | attempt :: rest =>
    match rpc_call attempt with
    | Except.ok a => (some (Except.ok a), 1)
    | Except.error e =>
      if e = StatusCode.unavailable then
        if attempt + 1 = max_retries then (some (Except.error e), 1)
        else
          let r := retryGo rpc_call max_retries rest
          (r.1, r.2 + 1)
      else (some (Except.error e), 1)

/-- seeder.py lines 63-104, _call_with_retry: retry UNAVAILABLE failures up
to max_retries attempts with a delay, re-raise the last error when retries
are exhausted, propagate every other error class immediately. -/
def call_with_retry (rpc_call : Nat → Except StatusCode α) (max_retries : Nat) :
    Option (Except StatusCode α) × Nat :=
  retryGo rpc_call max_retries (List.range max_retries)

/-- graph/service.py lines 31-79, GraphServicer.AddRelationship over the
relationships table (PRIMARY KEY (from_term_id, to_term_id, type), so a
duplicate triple raises IntegrityError, reported as ALREADY_EXISTS).
Returns the RPC outcome and the table afterwards. -/
def GraphServicer.AddRelationship (st : List Relationship)
    (from_term_id to_term_id : String) (type : Nat) :
    Except StatusCode Bool × List Relationship :=
  if from_term_id = "" ∨ to_term_id = "" then
    (Except.error StatusCode.invalidArgument, st)
  else if from_term_id = to_term_id then
    (Except.error StatusCode.invalidArgument, st)
  else if st.any (fun r =>
      r.from_term_id == from_term_id && r.to_term_id == to_term_id && r.type == type) then
    (Except.error StatusCode.alreadyExists, st)
  else
    (Except.ok true, st ++ [⟨from_term_id, to_term_id, type⟩])

/-- glossary/service.py lines 32-86, GlossaryServicer.AddTerm over the terms
table (id PRIMARY KEY, name UNIQUE: either duplicate raises IntegrityError,
reported as ALREADY_EXISTS).  `new_id` is the uuid drawn for this call.
Returns the RPC outcome and the table afterwards. -/
def GlossaryServicer.AddTerm (st : List Term) (new_id name definition : String) :
    Except StatusCode Term × List Term :=
  if name = "" ∨ definition = "" then
    (Except.error StatusCode.invalidArgument, st)
  else if st.any (fun t => t.id == new_id || t.name == name) then
    (Except.error StatusCode.alreadyExists, st)
  else
    (Except.ok ⟨new_id, name, definition⟩, st ++ [⟨new_id, name, definition⟩])

/-- glossary/service.py lines 128-166, GlossaryServicer.GetTermByName. -/
def GlossaryServicer.GetTermByName (st : List Term) (name : String) :
    Except StatusCode Term :=
  if name = "" then Except.error StatusCode.invalidArgument
  else
    match st.find? (fun t => t.name == name) with
    | some t => Except.ok t
    | none => Except.error StatusCode.notFound

/-- The combined backend state the seeder runs against: the glossary terms
table and the graph relationships table. -/
structure World where
  glossary : List Term
  graph : List Relationship
  deriving DecidableEq

/-- Python dict assignment `term_map[name] = id`: replace the value of an
existing key in place, otherwise append the new pair. -/
def mapInsert : List (String × String) → String → String → List (String × String)
  | [], k, v => [(k, v)]
  | p :: rest, k, v => if p.1 = k then (k, v) :: rest else p :: mapInsert rest k v

/-- `term_map.get(name)`. -/
def mapLookup (m : List (String × String)) (k : String) : Option String :=
  (m.find? (fun p => p.1 == k)).map (fun p => p.2)

/-- Every entry of the run-scoped name-to-id map points at a term of the
glossary table carrying that name and id. -/
def mapConsistent (m : List (String × String)) (g : List Term) : Prop :=
  ∀ k v, mapLookup m k = some v → ∃ t ∈ g, t.name = k ∧ t.id = v

/-- seeder.py lines 121-138, one iteration of the term-seeding loop: attempt
AddTerm (drawing the uuid `supply counter` server-side); on ALREADY_EXISTS
resolve the existing identifier by name; any other failure propagates,
aborting the run.  The retry wrapper around each call is the identity here
because the modelled backend is deterministic (no transient failures). -/
def seedTerm (gw : World) (supply : Nat → String) (counter : Nat)
    (term_map : List (String × String)) (name definition : String) :
    Except StatusCode (World × List (String × String) × Nat) :=
  match GlossaryServicer.AddTerm gw.glossary (supply counter) name definition with
  | (Except.ok new_term, st2) =>
    Except.ok ({ gw with glossary := st2 }, mapInsert term_map name new_term.id, counter + 1)
  | (Except.error e, _) =>
    if e = StatusCode.alreadyExists then
      match GlossaryServicer.GetTermByName gw.glossary name with
      | Except.ok existing_term =>
        Except.ok (gw, mapInsert term_map name existing_term.id, counter + 1)
      | Except.error e2 => Except.error e2
    else Except.error e

/-- seeder.py lines 120-138, the term-seeding loop over the seed list. -/
def seedTerms (supply : Nat → String) :
    List (String × String) → World → List (String × String) → Nat →
    Except StatusCode (World × List (String × String) × Nat)
  | [], gw, m, c => Except.ok (gw, m, c)
  | nd :: rest, gw, m, c =>
    match seedTerm gw supply c m nd.1 nd.2 with
    | Except.ok (gw2, m2, c2) => seedTerms supply rest gw2 m2 c2
    | Except.error e => Except.error e

/-- seeder.py lines 141-162, one iteration of the relationship-seeding loop:
resolve both endpoint names in the run-scoped map (`not all([from_id,
to_id])` also treats an empty-string id as unresolved, skipping the
relationship); attempt AddRelationship; ALREADY_EXISTS is skipped as
success; any other failure propagates, aborting the run. -/
def seedRelationship (gw : World) (term_map : List (String × String))
    (from_name to_name rel_type_str : String) : Except StatusCode World :=
  match mapLookup term_map from_name, mapLookup term_map to_name with
  | some from_id, some to_id =>
    if from_id = "" ∨ to_id = "" then Except.ok gw
    else
      match GraphServicer.AddRelationship gw.graph from_id to_id
          (get_relationship_type_enum rel_type_str) with
      | (Except.ok _, st2) => Except.ok { gw with graph := st2 }
      | (Except.error e, _) =>
        if e = StatusCode.alreadyExists then Except.ok gw else Except.error e
  | _, _ => Except.ok gw

/-- seeder.py lines 140-162, the relationship-seeding loop. -/
def seedRelationships :
    List (String × String × String) → World → List (String × String) →
    Except StatusCode World
  | [], gw, _ => Except.ok gw
  | x :: rest, gw, m =>
    match seedRelationship gw m x.1 x.2.1 x.2.2 with
    | Except.ok gw2 => seedRelationships rest gw2 m
    | Except.error e => Except.error e

/-- seeder.py lines 107-164, the seeding logic of run_seeder once connected:
seed every term building the name-to-id map, then seed every relationship.
An error anywhere aborts the run (caught by the outer except and logged as
a critical failure).  Returns the final backend state and uuid counter. -/
def run_seeder (supply : Nat → String)
    (terms : List (String × String)) (rels : List (String × String × String))
    (gw : World) (counter : Nat) : Except StatusCode (World × Nat) :=
  match seedTerms supply terms gw [] counter with
  | Except.ok (gw2, m, c2) =>
    match seedRelationships rels gw2 m with
    | Except.ok gw3 => Except.ok (gw3, c2)
    | Except.error e => Except.error e
  | Except.error e => Except.error e

/-- seeder.py lines 14-44: the (name, definition) seed list. -/
def SEED_TERMS : List (String × String) :=
  [("Microservice",
    "A software development technique that structures an application as a collection of loosely coupled services."),
   ("API Gateway",
    "An API management tool that sits between a client and a collection of backend services, acting as a reverse proxy to accept all API calls."),
   ("Containerization",
    "A form of OS virtualization where applications run in isolated user spaces called containers, sharing the same OS kernel."),
   ("Docker",
    "A platform that uses OS-level virtualization to deliver software in packages called containers."),
   ("Kubernetes",
    "An open-source container-orchestration system for automating application deployment, scaling, and management."),
   ("gRPC",
    "A high-performance, open-source universal RPC framework designed by Google."),
   ("Service Discovery",
    "The process of automatically detecting devices and services on a network, crucial for microservice architectures.")]

/-- seeder.py lines 45-54: the (from-name, to-name, kind) seed list. -/
def SEED_RELATIONSHIPS : List (String × String × String) :=
  [("API Gateway", "Microservice", "RELATED_TO"),
   ("Microservice", "API Gateway", "DEPENDS_ON"),
   ("Service Discovery", "Microservice", "RELATED_TO"),
   ("Microservice", "Service Discovery", "DEPENDS_ON"),
   ("Docker", "Containerization", "IS_A"),
   ("Kubernetes", "Containerization", "IS_A"),
   ("Kubernetes", "Docker", "RELATED_TO"),
   ("gRPC", "Microservice", "RELATED_TO")]

/-- Outcome of one seeding run as observed by the process. -/
inductive SeedRunOutcome where
  | completed
  | abandoned
  deriving DecidableEq

/-- seeder.py lines 107-169, the top level of run_seeder: a single
`with grpc.insecure_channel` block whose readiness wait
(`channel_ready_future(channel).result(timeout=10)`) either succeeds or
raises; the enclosing try/except catches every exception, logs a critical
error and returns.  `ready` is whether the gateway connection became ready
within the timeout, `body` the outcome of the seeding logic. -/
def run_seeder_main (ready : Bool) (body : SeedRunOutcome) : SeedRunOutcome :=
  if ready then body else SeedRunOutcome.abandoned

/-- run.py lines 63-80, seed_in_background: sleep for a fixed delay, then
call run_seeder exactly once inside a try/except that only logs.  `ready n`
is the gateway readiness at the n-th connection attempt; the result pairs
the run outcome with the number of connection attempts made. -/
def seed_in_background (ready : Nat → Bool) (body : SeedRunOutcome) :
    SeedRunOutcome × Nat :=
  (run_seeder_main (ready 0) body, 1)

/-! ### Helper lemmas: the identifier set built from relationships -/

theorem mem_addId (s : List String) (x y : String) (h : x ∈ s) : x ∈ addId s y := by
  unfold addId
  split
  · exact h
  · exact List.mem_append_left _ h

theorem mem_addId_self (s : List String) (x : String) : x ∈ addId s x := by
  unfold addId
  split
  · assumption
  · exact List.mem_append_right _ (List.mem_singleton.mpr rfl)

theorem nodup_addId (s : List String) (x : String) (h : s.Nodup) : (addId s x).Nodup := by
  unfold addId
  split
  · exact h
  · rename_i hx
    refine List.Nodup.append h (List.nodup_singleton x) ?_
    intro a ha hb
    rw [List.mem_singleton] at hb
    subst hb
    exact hx ha

theorem mem_foldl_addId (rels : List Relationship) (init : List String) (x : String)
    (h : x ∈ init) :
    x ∈ rels.foldl (fun s r => addId (addId s r.from_term_id) r.to_term_id) init := by
  induction rels generalizing init with
  | nil => exact h
  | cons r rest ih => exact ih _ (mem_addId _ _ _ (mem_addId _ _ _ h))

theorem nodup_foldl_addId (rels : List Relationship) (init : List String)
    (h : init.Nodup) :
    (rels.foldl (fun s r => addId (addId s r.from_term_id) r.to_term_id) init).Nodup := by
  induction rels generalizing init with
  | nil => exact h
  | cons r rest ih => exact ih _ (nodup_addId _ _ (nodup_addId _ _ h))

theorem endpoints_mem_foldl (rels : List Relationship) (init : List String) :
    ∀ r ∈ rels,
      r.from_term_id ∈ rels.foldl (fun s x => addId (addId s x.from_term_id) x.to_term_id) init ∧
      r.to_term_id ∈ rels.foldl (fun s x => addId (addId s x.from_term_id) x.to_term_id) init := by
  induction rels generalizing init with
  | nil => intro r hr; cases hr
  | cons a rest ih =>
    intro r hr
    simp only [List.foldl_cons]
    rcases List.mem_cons.mp hr with h | h
    · subst h
      constructor
      · exact mem_foldl_addId rest _ _ (mem_addId _ _ _ (mem_addId_self _ _))
      · exact mem_foldl_addId rest _ _ (mem_addId_self _ _)
    · exact ih _ r h

theorem nodup_related_ids (rels : List Relationship) : (related_ids rels).Nodup :=
  nodup_foldl_addId rels [] List.nodup_nil

theorem nodup_all_term_ids (term_id : String) (rels : List Relationship) :
    (all_term_ids term_id rels).Nodup :=
  nodup_foldl_addId rels [term_id] (List.nodup_singleton term_id)

theorem endpoints_mem_related_ids (rels : List Relationship) :
    ∀ r ∈ rels, r.from_term_id ∈ related_ids rels ∧ r.to_term_id ∈ related_ids rels :=
  endpoints_mem_foldl rels []

/-! ### Helper lemmas: the term lookup map -/

/-- The outcome of one glossary GetTerm call, as an Option (proof helper). -/
def fetchOption (fetch : String → Except StatusCode Term) (id : String) : Option Term :=
  match fetch id with
  | Except.ok t => some t
  | Except.error _ => none

theorem lookupId_nil (k : String) : lookupId [] k = none := rfl

theorem lookupId_cons (p : String × Term) (m : List (String × Term)) (k : String) :
    lookupId (p :: m) k = if p.1 = k then some p.2 else lookupId m k := by
  by_cases h : p.1 = k <;> simp [lookupId, List.find?_cons, h]

theorem lookupId_get_term_lookup (fetch : String → Except StatusCode Term)
    (ids : List String) (id : String) :
    lookupId (get_term_lookup fetch ids) id =
      if id ∈ ids then fetchOption fetch id else none := by
  induction ids with
  | nil => simp [get_term_lookup, lookupId_nil]
  | cons x rest ih =>
    unfold get_term_lookup
    by_cases hid : x = id
    · subst hid
      cases hx : fetch x with
      | ok t => simp [lookupId_cons, fetchOption, hx]
      | error e =>
        rw [ih]
        by_cases hmem : x ∈ rest <;> simp [hmem, fetchOption, hx]
    · have hid2 : ¬ id = x := fun h => hid h.symm
      cases hx : fetch x with
      | ok t =>
        rw [lookupId_cons, if_neg hid, ih]
        simp [List.mem_cons, hid2]
      | error e =>
        rw [ih]
        simp [List.mem_cons, hid2]

theorem mem_get_term_lookup (fetch : String → Except StatusCode Term)
    (ids : List String) (id : String) (t : Term) (hid : id ∈ ids)
    (hf : fetch id = Except.ok t) :
    (id, t) ∈ get_term_lookup fetch ids := by
  induction ids with
  | nil => cases hid
  | cons x rest ih =>
    unfold get_term_lookup
    rcases List.mem_cons.mp hid with h | h
    · subst h
      rw [hf]
      exact List.mem_cons_self _ _
    · cases hx : fetch x with
      | ok u => exact List.mem_cons_of_mem _ (ih h)
      | error e => exact ih h

/-! ### Helper lemmas: the enrichment lookup -/

/-- An identifier resolves to a name during enriched-term assembly when its
own glossary fetch succeeds or it is the central (already fetched) term. -/
def resolves (fetch : String → Except StatusCode Term) (term : Term) (id : String) : Prop :=
  (∃ t, fetch id = Except.ok t) ∨ id = term.id

theorem lookupId_append (m1 m2 : List (String × Term)) (k : String) :
    lookupId (m1 ++ m2) k =
      match lookupId m1 k with
      | some t => some t
      | none => lookupId m2 k := by
  induction m1 with
  | nil => simp [lookupId_nil]
  | cons p rest ih =>
    rw [List.cons_append, lookupId_cons, lookupId_cons]
    by_cases h : p.1 = k <;> simp [h, ih]

theorem lookupId_enrichLookup_isSome (fetch : String → Except StatusCode Term)
    (term : Term) (rels : List Relationship) (e : String)
    (he : e ∈ related_ids rels) :
    (lookupId (enrichLookup fetch term rels) e).isSome ↔ resolves fetch term e := by
  have hbase : lookupId (get_term_lookup fetch (related_ids rels)) e =
      fetchOption fetch e := by
    rw [lookupId_get_term_lookup, if_pos he]
  have hfOpt : (fetchOption fetch e).isSome ↔ ∃ t, fetch e = Except.ok t := by
    unfold fetchOption
    cases hf : fetch e <;> simp
  unfold enrichLookup
  by_cases hc : (lookupId (get_term_lookup fetch (related_ids rels)) term.id).isSome
  · rw [if_pos hc, hbase]
    constructor
    · intro h
      exact Or.inl (hfOpt.mp h)
    · rintro (h | h)
      · exact hfOpt.mpr h
      · subst h
        rw [hbase] at hc
        exact hc
  · rw [if_neg hc, lookupId_append, hbase]
    cases hf : fetch e with
    | ok t => simp [fetchOption, hf, resolves]
    | error e2 =>
      have hfo : fetchOption fetch e = none := by
        unfold fetchOption
        rw [hf]
      rw [hfo]
      show (lookupId [(term.id, term)] e).isSome ↔ resolves fetch term e
      rw [lookupId_cons]
      by_cases ht : term.id = e
      · rw [if_pos ht]
        constructor
        · intro h2
          exact Or.inr ht.symm
        · intro h2
          rfl
      · rw [if_neg ht, lookupId_nil]
        constructor
        · intro h2
          simp at h2
        · rintro (⟨t, hteq⟩ | h2)
          · rw [hf] at hteq
            exact Except.noConfusion hteq
          · exact (ht h2.symm).elim

/-! ### Helper lemmas: filterMap lengths -/

theorem length_filterMap_lt {α β : Type} (f : α → Option β) (l : List α) (a : α)
    (ha : a ∈ l) (hfa : f a = none) : (l.filterMap f).length < l.length := by
  induction l with
  | nil => cases ha
  | cons x rest ih =>
    rcases List.mem_cons.mp ha with h | h
    · subst h
      rw [List.filterMap_cons, hfa]
      exact Nat.lt_succ_of_le (List.length_filterMap_le f rest)
    · rw [List.filterMap_cons]
      cases hfx : f x with
      | none =>
        simp only [List.length_cons]
        exact Nat.lt_succ_of_lt (ih h)
      | some b =>
        simp only [List.length_cons]
        exact Nat.succ_lt_succ (ih h)

/-! ### Claim C1: per-call term fetch deduplication -/

theorem count_details_trace (fetch : String → Except StatusCode Term)
    (relsFetch : String → Except StatusCode (List Relationship))
    (term : Term) (id : String) :
    ((get_term_details fetch relsFetch term).2).count id ≤ 1 := by
  unfold get_term_details
  split
  · simp
  · split
    · simp
    · exact List.nodup_iff_count_le_one.mp (nodup_related_ids _) id

/-- C1, counterexample.  In one enriched-term orchestration call over a store
holding the terms id1 and id2 and one relationship (id1, id2), the central
identifier id1 is passed to the glossary GetTerm backend twice: once by the
central fetch and once more by the neighbor-resolution lookup, refuting "at
most once". -/
theorem getTerm_central_fetch_twice :
    ((GatewayServer.GetTerm (fun id => Except.ok ⟨id, "n", "d"⟩)
        (fun _ => Except.ok [⟨"id1", "id2", 1⟩]) "id1").2).count "id1" = 2 := by
  rfl

/-- C1, amended.  Within one mind-map assembly every term identifier
(including the central one) is passed to the glossary GetTerm backend at
most once; within one enriched-term orchestration call every identifier
other than the central one is passed at most once, and the central
identifier at most twice (the central fetch plus at most one
neighbor-resolution fetch). -/
theorem term_fetch_dedup_amended (fetch : String → Except StatusCode Term)
    (relsFetch : String → Except StatusCode (List Relationship))
    (term_id id : String) :
    ((GatewayServer.GetMindMapForTerm fetch relsFetch term_id).2.count id ≤ 1) ∧
    ((GatewayServer.GetTerm fetch relsFetch term_id).2.count id ≤ 2) ∧
    (id ≠ term_id → (GatewayServer.GetTerm fetch relsFetch term_id).2.count id ≤ 1) := by
  have hmm : (GatewayServer.GetMindMapForTerm fetch relsFetch term_id).2.count id ≤ 1 := by
    unfold GatewayServer.GetMindMapForTerm
    cases hr : relsFetch term_id with
    | error e => simp
    | ok rels =>
      exact List.nodup_iff_count_le_one.mp (nodup_all_term_ids term_id rels) id
  have key : ∀ l : List String, l.count id ≤ 1 →
      (term_id :: l).count id ≤ 2 ∧ (id ≠ term_id → (term_id :: l).count id ≤ 1) := by
    intro l hl
    by_cases hid : id = term_id
    · subst hid
      rw [List.count_cons_self]
      exact ⟨Nat.succ_le_succ hl, fun h => absurd rfl h⟩
    · rw [List.count_cons_of_ne hid]
      exact ⟨Nat.le_succ_of_le hl, fun _ => hl⟩
  have hgt : (GatewayServer.GetTerm fetch relsFetch term_id).2.count id ≤ 2 ∧
      (id ≠ term_id → (GatewayServer.GetTerm fetch relsFetch term_id).2.count id ≤ 1) := by
    unfold GatewayServer.GetTerm
    cases hf : fetch term_id with
    | error e => exact key [] (by simp)
    | ok term => exact key _ (count_details_trace fetch relsFetch term id)
  exact ⟨hmm, hgt.1, hgt.2⟩

/-- C1, witness for the amended statement at a concrete input. -/
theorem term_fetch_dedup_amended_witness :
    ("id2" : String) ≠ "id1" ∧
    ((GatewayServer.GetTerm (fun id => Except.ok ⟨id, "n", "d"⟩)
        (fun _ => Except.ok [⟨"id1", "id2", 1⟩]) "id1").2).count "id2" ≤ 1 :=
  ⟨by decide,
    (term_fetch_dedup_amended (fun id => Except.ok ⟨id, "n", "d"⟩)
      (fun _ => Except.ok [⟨"id1", "id2", 1⟩]) "id1" "id2").2.2 (by decide)⟩

/-! ### Claim C2: the central node of the mind map -/

/-- C2, counterexample.  When the glossary cannot resolve the requested
identifier (here: the term store holds nothing), GetMindMapForTerm succeeds
with an empty node list: no node carries the requested identifier, refuting
the unconditional claim. -/
theorem mindmap_missing_center_node :
    ¬ ∃ res n, (GatewayServer.GetMindMapForTerm (fun _ => Except.error StatusCode.notFound)
        (fun _ => Except.ok ([] : List Relationship)) "id1").1 = Except.ok res ∧
      n ∈ res.nodes ∧ n.id = "id1" := by
  rintro ⟨res, n, hres, hn, hid⟩
  have h0 : (GatewayServer.GetMindMapForTerm (fun _ => Except.error StatusCode.notFound)
      (fun _ => Except.ok ([] : List Relationship)) "id1").1 =
      Except.ok { nodes := [], edges := [] } := rfl
  rw [h0] at hres
  injection hres with h2
  rw [← h2] at hn
  simp at hn

/-- C2, amended.  Whenever the requested identifier itself resolves in the
term store, the node list of a successful GetMindMapForTerm contains a node
with that identifier, even when the relationship store returns zero
relationships; an unresolvable central term is omitted from the node list. -/
theorem mindmap_center_node_amended (fetch : String → Except StatusCode Term)
    (relsFetch : String → Except StatusCode (List Relationship))
    (term_id : String) (t : Term) (rels : List Relationship)
    (hok : fetch term_id = Except.ok t) (hid : t.id = term_id)
    (hr : relsFetch term_id = Except.ok rels) :
    ∃ res, (GatewayServer.GetMindMapForTerm fetch relsFetch term_id).1 = Except.ok res ∧
      ∃ n ∈ res.nodes, n.id = term_id := by
  refine ⟨(⟨(get_term_lookup fetch (all_term_ids term_id rels)).map
      (fun p => Node.mk p.2.id p.2.name p.2.definition),
    rels.map (fun r => Edge.mk r.from_term_id r.to_term_id (edgeLabel r.type))⟩ :
      GetMindMapForTermResponse), ?_, ?_⟩
  · unfold GatewayServer.GetMindMapForTerm
    rw [hr]
  · have hmem : term_id ∈ all_term_ids term_id rels :=
      mem_foldl_addId rels [term_id] term_id (List.mem_singleton.mpr rfl)
    have hpair : (term_id, t) ∈ get_term_lookup fetch (all_term_ids term_id rels) :=
      mem_get_term_lookup fetch _ term_id t hmem hok
    refine ⟨Node.mk t.id t.name t.definition, ?_, hid⟩
    exact List.mem_map.mpr ⟨(term_id, t), hpair, rfl⟩

/-- C2, witness for the amended statement at a concrete input with zero
relationships. -/
theorem mindmap_center_node_amended_witness :
    ∃ res, (GatewayServer.GetMindMapForTerm (fun id => Except.ok ⟨id, "A", "dA"⟩)
        (fun _ => Except.ok ([] : List Relationship)) "id1").1 = Except.ok res ∧
      ∃ n ∈ res.nodes, n.id = "id1" :=
  mindmap_center_node_amended (fun id => Except.ok ⟨id, "A", "dA"⟩)
    (fun _ => Except.ok ([] : List Relationship)) "id1" ⟨"id1", "A", "dA"⟩ [] rfl rfl rfl

/-! ### Claim C3: mind-map edges -/

/-- C3.  When the relationship fetch succeeds, GetMindMapForTerm emits
exactly one edge per returned relationship (count preserved, no edge
dropped on neighbor-resolution failure, since the node lookup does not
influence the edge list), each edge labeled with the relationship kind's
string name and the fixed fallback "UNKNOWN" for values outside the label
table. -/
theorem mindmap_edge_count_labels (fetch : String → Except StatusCode Term)
    (relsFetch : String → Except StatusCode (List Relationship))
    (term_id : String) (rels : List Relationship)
    (hr : relsFetch term_id = Except.ok rels) :
    ∃ res, (GatewayServer.GetMindMapForTerm fetch relsFetch term_id).1 = Except.ok res ∧
      res.edges = rels.map (fun r => Edge.mk r.from_term_id r.to_term_id (edgeLabel r.type)) ∧
      res.edges.length = rels.length ∧
      (∀ p ∈ RelationshipType.items, edgeLabel p.2 = p.1) ∧
      (∀ v : Nat, (∀ p ∈ RelationshipType.items, p.2 ≠ v) → edgeLabel v = "UNKNOWN") := by
  refine ⟨⟨(get_term_lookup fetch (all_term_ids term_id rels)).map
      (fun p => Node.mk p.2.id p.2.name p.2.definition),
    rels.map (fun r => Edge.mk r.from_term_id r.to_term_id (edgeLabel r.type))⟩,
    ?_, rfl, ?_, ?_, ?_⟩
  · unfold GatewayServer.GetMindMapForTerm
    rw [hr]
  · simp
  · decide
  · intro v hv
    unfold edgeLabel relationship_type_map
    have hnone : RelationshipType.items.find? (fun p => p.2 == v) = none := by
      apply List.find?_eq_none.mpr
      intro p hp
      simpa using hv p hp
    rw [hnone]
    rfl

/-- C3, witness at a concrete input whose kind value is outside the label
table. -/
theorem mindmap_edge_count_labels_witness :
    ∃ res, (GatewayServer.GetMindMapForTerm (fun id => Except.ok ⟨id, "A", "dA"⟩)
        (fun _ => Except.ok [⟨"a", "b", 5⟩]) "a").1 = Except.ok res ∧
      res.edges = ([⟨"a", "b", 5⟩] : List Relationship).map
        (fun r => Edge.mk r.from_term_id r.to_term_id (edgeLabel r.type)) ∧
      res.edges.length = ([⟨"a", "b", 5⟩] : List Relationship).length ∧
      (∀ p ∈ RelationshipType.items, edgeLabel p.2 = p.1) ∧
      (∀ v : Nat, (∀ p ∈ RelationshipType.items, p.2 ≠ v) → edgeLabel v = "UNKNOWN") :=
  mindmap_edge_count_labels (fun id => Except.ok ⟨id, "A", "dA"⟩)
    (fun _ => Except.ok [⟨"a", "b", 5⟩]) "a" [⟨"a", "b", 5⟩] rfl

/-! ### Claim C4: enriched relationships keep exactly the fully resolved ones -/

/-- C4.  When the relationship fetch succeeds, the enriched view contains a
record for a relationship exactly when both endpoint identifiers resolved
(fetched successfully or equal to the central term); hence its length never
exceeds the store's relationship count and is strictly smaller as soon as
one referenced endpoint fails to resolve. -/
theorem enriched_relationships_resolved (fetch : String → Except StatusCode Term)
    (relsFetch : String → Except StatusCode (List Relationship))
    (term : Term) (rels : List Relationship)
    (hr : relsFetch term.id = Except.ok rels) :
    (get_term_details fetch relsFetch term).1.relationships.length ≤ rels.length ∧
    (∀ r ∈ rels,
      (resolves fetch term r.from_term_id ∧ resolves fetch term r.to_term_id) ↔
        ∃ d ∈ (get_term_details fetch relsFetch term).1.relationships,
          d.from_term_id = r.from_term_id ∧ d.to_term_id = r.to_term_id ∧
          d.type = r.type) ∧
    ((∃ r ∈ rels, ¬ resolves fetch term r.from_term_id ∨ ¬ resolves fetch term r.to_term_id) →
      (get_term_details fetch relsFetch term).1.relationships.length < rels.length) := by
  have hgd : (get_term_details fetch relsFetch term).1.relationships =
      if rels.isEmpty then [] else enrichRelationships fetch term rels := by
    unfold get_term_details
    rw [hr]
    by_cases hemp : rels.isEmpty <;> simp [hemp]
  rw [hgd]
  by_cases hemp : rels.isEmpty
  · have hnil : rels = [] := by simpa using hemp
    subst hnil
    simp
  · rw [if_neg hemp]
    unfold enrichRelationships
    refine ⟨List.length_filterMap_le _ _, ?_, ?_⟩
    · intro r hrm
      obtain ⟨hfm, htm⟩ := endpoints_mem_related_ids rels r hrm
      constructor
      · rintro ⟨h1, h2⟩
        obtain ⟨ft, hft⟩ := Option.isSome_iff_exists.mp
          ((lookupId_enrichLookup_isSome fetch term rels _ hfm).mpr h1)
        obtain ⟨tt, htt⟩ := Option.isSome_iff_exists.mp
          ((lookupId_enrichLookup_isSome fetch term rels _ htm).mpr h2)
        refine ⟨⟨r.from_term_id, r.to_term_id, r.type, ft.name, tt.name⟩, ?_, rfl, rfl, rfl⟩
        apply List.mem_filterMap.mpr
        exact ⟨r, hrm, by rw [hft, htt]⟩
      · rintro ⟨d, hd, h1, h2, h3⟩
        obtain ⟨a, ha, hfa⟩ := List.mem_filterMap.mp hd
        cases o1 : lookupId (enrichLookup fetch term rels) a.from_term_id with
        | none =>
          rw [o1] at hfa
          cases o2 : lookupId (enrichLookup fetch term rels) a.to_term_id <;>
            rw [o2] at hfa <;> simp at hfa
        | some ft =>
          cases o2 : lookupId (enrichLookup fetch term rels) a.to_term_id with
          | none =>
            rw [o1, o2] at hfa
            simp at hfa
          | some tt =>
            rw [o1, o2] at hfa
            injection hfa with hfa2
            have haf : a.from_term_id = d.from_term_id := by rw [← hfa2]
            have hat : a.to_term_id = d.to_term_id := by rw [← hfa2]
            obtain ⟨haf2, hat2⟩ := endpoints_mem_related_ids rels a ha
            constructor
            · rw [← h1, ← haf]
              exact (lookupId_enrichLookup_isSome fetch term rels _ haf2).mp
                (by rw [o1]; rfl)
            · rw [← h2, ← hat]
              exact (lookupId_enrichLookup_isSome fetch term rels _ hat2).mp
                (by rw [o2]; rfl)
    · rintro ⟨r, hrm, hbad⟩
      obtain ⟨hfm, htm⟩ := endpoints_mem_related_ids rels r hrm
      apply length_filterMap_lt _ rels r hrm
      dsimp only
      rcases hbad with h | h
      · have hnone : lookupId (enrichLookup fetch term rels) r.from_term_id = none := by
          rw [← Option.not_isSome_iff_eq_none]
          exact fun hs => h ((lookupId_enrichLookup_isSome fetch term rels _ hfm).mp hs)
        cases o2 : lookupId (enrichLookup fetch term rels) r.to_term_id <;>
          simp [hnone, o2]
      · have hnone : lookupId (enrichLookup fetch term rels) r.to_term_id = none := by
          rw [← Option.not_isSome_iff_eq_none]
          exact fun hs => h ((lookupId_enrichLookup_isSome fetch term rels _ htm).mp hs)
        cases o1 : lookupId (enrichLookup fetch term rels) r.from_term_id <;>
          simp [hnone, o1]

/-- C4, witness: with one relationship whose far endpoint does not resolve,
the enriched count drops strictly below the store count. -/
theorem enriched_relationships_resolved_witness :
    (get_term_details
        (fun id => if id = "id2" then Except.error StatusCode.notFound
          else Except.ok ⟨id, "A", "d"⟩)
        (fun _ => Except.ok [⟨"id1", "id2", 1⟩])
        ⟨"id1", "A", "d"⟩).1.relationships.length <
      ([⟨"id1", "id2", 1⟩] : List Relationship).length :=
  (enriched_relationships_resolved
      (fun id => if id = "id2" then Except.error StatusCode.notFound
        else Except.ok ⟨id, "A", "d"⟩)
      (fun _ => Except.ok [⟨"id1", "id2", 1⟩])
      ⟨"id1", "A", "d"⟩ [⟨"id1", "id2", 1⟩] rfl).2.2
    ⟨⟨"id1", "id2", 1⟩, List.mem_singleton.mpr rfl,
      Or.inr (by
        rintro (⟨t, ht⟩ | h)
        · exact Except.noConfusion ht
        · exact absurd h (by decide))⟩

/-! ### Claim C5: enriched term degrades on relationship-fetch failure -/

/-- C5.  If the central term fetch succeeds and the subsequent relationship
fetch fails with any backend RPC error, the enriched-term operation returns
a successful response holding the term and an empty relationship list. -/
theorem enriched_degraded_on_rel_failure (fetch : String → Except StatusCode Term)
    (relsFetch : String → Except StatusCode (List Relationship))
    (term_id : String) (term : Term) (e : StatusCode)
    (h1 : fetch term_id = Except.ok term)
    (h2 : relsFetch term.id = Except.error e) :
    (GatewayServer.GetTerm fetch relsFetch term_id).1 =
      Except.ok { term := term, relationships := [] } := by
  unfold GatewayServer.GetTerm
  rw [h1]
  show Except.ok (get_term_details fetch relsFetch term).1 =
    Except.ok { term := term, relationships := [] }
  unfold get_term_details
  rw [h2]

/-- C5, witness at a concrete input with an unavailable relationship store. -/
theorem enriched_degraded_on_rel_failure_witness :
    (GatewayServer.GetTerm (fun _ => Except.ok ⟨"id1", "A", "d"⟩)
        (fun _ => Except.error StatusCode.unavailable) "id1").1 =
      Except.ok { term := ⟨"id1", "A", "d"⟩, relationships := [] } :=
  enriched_degraded_on_rel_failure (fun _ => Except.ok ⟨"id1", "A", "d"⟩)
    (fun _ => Except.error StatusCode.unavailable) "id1" ⟨"id1", "A", "d"⟩
    StatusCode.unavailable rfl rfl

/-! ### Claim C6: mind map fails when the relationship fetch fails -/

/-- C6.  If the initial relationship fetch of GetMindMapForTerm fails, the
whole operation fails and surfaces the backend's error code unchanged; no
degraded mind map is produced. -/
theorem mindmap_propagates_rel_failure (fetch : String → Except StatusCode Term)
    (relsFetch : String → Except StatusCode (List Relationship))
    (term_id : String) (e : StatusCode)
    (h : relsFetch term_id = Except.error e) :
    (GatewayServer.GetMindMapForTerm fetch relsFetch term_id).1 = Except.error e := by
  unfold GatewayServer.GetMindMapForTerm
  rw [h]

/-- C6, witness at a concrete input. -/
theorem mindmap_propagates_rel_failure_witness :
    (GatewayServer.GetMindMapForTerm (fun id => Except.ok ⟨id, "A", "d"⟩)
        (fun _ => Except.error StatusCode.internal) "id1").1 =
      Except.error StatusCode.internal :=
  mindmap_propagates_rel_failure (fun id => Except.ok ⟨id, "A", "d"⟩)
    (fun _ => Except.error StatusCode.internal) "id1" StatusCode.internal rfl

/-! ### Claim C9: the seeding run is not wrapped in an outer retry loop -/

/-- C9, counterexample.  With a gateway that is not ready at the moment the
seeder connects but ready at every later instant, the seeding run is
abandoned after exactly one connection attempt: it is not retried, refuting
the claimed outer retry loop. -/
theorem seeder_single_attempt_abandoned :
    seed_in_background (fun n => decide (0 < n)) SeedRunOutcome.completed =
      (SeedRunOutcome.abandoned, 1) := rfl

/-- C9, amended.  The seeding run is started once after a fixed delay in a
background thread and makes exactly one connection attempt; if the gateway
is not ready at that attempt the run is abandoned (its failure only
logged), otherwise the seeding body runs. -/
theorem seeder_no_outer_retry_amended (ready : Nat → Bool) (body : SeedRunOutcome) :
    (seed_in_background ready body).2 = 1 ∧
    (ready 0 = false → (seed_in_background ready body).1 = SeedRunOutcome.abandoned) ∧
    (ready 0 = true → (seed_in_background ready body).1 = body) := by
  refine ⟨rfl, ?_, ?_⟩ <;> intro h <;>
    simp [seed_in_background, run_seeder_main, h]

/-- C9, witness for the amended statement at a concrete input. -/
theorem seeder_no_outer_retry_amended_witness :
    (fun n => decide (0 < n)) 0 = false ∧
    (seed_in_background (fun n => decide (0 < n)) SeedRunOutcome.completed).1 =
      SeedRunOutcome.abandoned :=
  ⟨rfl, (seeder_no_outer_retry_amended (fun n => decide (0 < n))
    SeedRunOutcome.completed).2.1 rfl⟩

/-! ### Claim C10: self-referential relationships are rejected -/

/-- C10.  An AddRelationship request whose from-term-id equals its to-term-id
is rejected with INVALID_ARGUMENT and the stored relationship set is left
unchanged, so a self-referential relationship can never be created. -/
theorem addRelationship_rejects_self_loop (st : List Relationship)
    (from_id to_id : String) (ty : Nat) (h : from_id = to_id) :
    GraphServicer.AddRelationship st from_id to_id ty =
      (Except.error StatusCode.invalidArgument, st) := by
  subst h
  rcases eq_or_ne from_id "" with he | he <;>
    simp [GraphServicer.AddRelationship, he]

/-- C10, witness at a concrete input. -/
theorem addRelationship_rejects_self_loop_witness :
    GraphServicer.AddRelationship [⟨"a", "b", 1⟩] "x" "x" 2 =
      (Except.error StatusCode.invalidArgument, [⟨"a", "b", 1⟩]) :=
  addRelationship_rejects_self_loop [⟨"a", "b", 1⟩] "x" "x" 2 rfl

/-! ### Claim C7: the call-level retrier -/

theorem retryGo_success {α : Type} (rpc_call : Nat → Except StatusCode α)
    (max_retries : Nat) :
    ∀ (k s n : Nat) (a : α), 1 ≤ k → k ≤ n → s + n = max_retries →
      (∀ i, i < k - 1 → rpc_call (s + i) = Except.error StatusCode.unavailable) →
      rpc_call (s + (k - 1)) = Except.ok a →
      retryGo rpc_call max_retries (List.range' s n) = (some (Except.ok a), k) := by
  intro k
  induction k with
  | zero => intro s n a h1 h2 h3 h4 h5; exact absurd h1 (by omega)
  | succ k ih =>
    intro s n a h1 h2 h3 h4 h5
    obtain ⟨m, rfl⟩ : ∃ m, n = m + 1 := ⟨n - 1, by omega⟩
    rw [show List.range' s (m + 1) = s :: List.range' (s + 1) m from rfl]
    rcases Nat.eq_zero_or_pos k with hk | hk
    · subst hk
      have h5s : rpc_call s = Except.ok a := by
        have h6 := h5
        rwa [show s + (0 + 1 - 1) = s by omega] at h6
      simp [retryGo, h5s]
    · have hfail : rpc_call s = Except.error StatusCode.unavailable := by
        have h6 := h4 0 (by omega)
        rwa [Nat.add_zero] at h6
      simp only [retryGo, hfail]
      rw [if_pos trivial, if_neg (by omega : ¬ s + 1 = max_retries)]
      rw [ih (s + 1) m a (by omega) (by omega) (by omega)
        (fun i hi => by
          have h6 := h4 (i + 1) (by omega)
          rwa [show s + (i + 1) = s + 1 + i by omega] at h6)
        (by
          have h6 := h5
          rwa [show s + (k + 1 - 1) = s + 1 + (k - 1) by omega] at h6)]

theorem retryGo_exhaust {α : Type} (rpc_call : Nat → Except StatusCode α)
    (max_retries : Nat) :
    ∀ (n s : Nat), 1 ≤ n → s + n = max_retries →
      (∀ i, i < n → rpc_call (s + i) = Except.error StatusCode.unavailable) →
      retryGo rpc_call max_retries (List.range' s n) =
        (some (Except.error StatusCode.unavailable), n) := by
  intro n
  induction n with
  | zero => intro s h1 h2 h3; exact absurd h1 (by omega)
  | succ m ih =>
    intro s h1 h2 h3
    have hfail : rpc_call s = Except.error StatusCode.unavailable := by
      have h6 := h3 0 (by omega)
      rwa [Nat.add_zero] at h6
    rw [show List.range' s (m + 1) = s :: List.range' (s + 1) m from rfl]
    rcases Nat.eq_zero_or_pos m with hm | hm
    · subst hm
      simp only [retryGo, hfail]
      rw [if_pos trivial, if_pos (by omega : s + 1 = max_retries)]
    · simp only [retryGo, hfail]
      rw [if_pos trivial, if_neg (by omega : ¬ s + 1 = max_retries)]
      rw [ih (s + 1) (by omega) (by omega)
        (fun i hi => by
          have h6 := h3 (i + 1) (by omega)
          rwa [show s + (i + 1) = s + 1 + i by omega] at h6)]

theorem retryGo_nonretriable {α : Type} (rpc_call : Nat → Except StatusCode α)
    (max_retries : Nat) (n s : Nat) (e : StatusCode) (h1 : 1 ≤ n)
    (he : e ≠ StatusCode.unavailable)
    (h5 : rpc_call s = Except.error e) :
    retryGo rpc_call max_retries (List.range' s n) = (some (Except.error e), 1) := by
  obtain ⟨m, rfl⟩ : ∃ m, n = m + 1 := ⟨n - 1, by omega⟩
  rw [show List.range' s (m + 1) = s :: List.range' (s + 1) m from rfl]
  simp only [retryGo, h5]
  rw [if_neg he]

/-- C7.  call_with_retry returns the operation's result after exactly k
attempts when the first k-1 attempts fail with UNAVAILABLE and attempt k
(k ≤ max_retries) succeeds; it re-raises the UNAVAILABLE error after
exactly max_retries failed attempts; and a failure with any other code
(for example not-found) is propagated immediately with exactly one attempt
made. -/
theorem call_with_retry_spec (α : Type) :
    (∀ (rpc_call : Nat → Except StatusCode α) (max_retries k : Nat) (a : α),
      1 ≤ k → k ≤ max_retries →
      (∀ i, i < k - 1 → rpc_call i = Except.error StatusCode.unavailable) →
      rpc_call (k - 1) = Except.ok a →
      call_with_retry rpc_call max_retries = (some (Except.ok a), k)) ∧
    (∀ (rpc_call : Nat → Except StatusCode α) (max_retries : Nat),
      1 ≤ max_retries →
      (∀ i, i < max_retries → rpc_call i = Except.error StatusCode.unavailable) →
      call_with_retry rpc_call max_retries =
        (some (Except.error StatusCode.unavailable), max_retries)) ∧
    (∀ (rpc_call : Nat → Except StatusCode α) (max_retries : Nat) (e : StatusCode),
      1 ≤ max_retries → e ≠ StatusCode.unavailable →
      rpc_call 0 = Except.error e →
      call_with_retry rpc_call max_retries = (some (Except.error e), 1)) := by
  refine ⟨?_, ?_, ?_⟩
  · intro rpc_call max_retries k a h1 h2 h3 h4
    unfold call_with_retry
    rw [List.range_eq_range']
    refine retryGo_success rpc_call max_retries k 0 max_retries a h1 h2 (by omega) ?_ ?_
    · intro i hi
      simpa using h3 i hi
    · simpa using h4
  · intro rpc_call max_retries h1 h2
    unfold call_with_retry
    rw [List.range_eq_range']
    refine retryGo_exhaust rpc_call max_retries max_retries 0 h1 (by omega) ?_
    intro i hi
    simpa using h2 i hi
  · intro rpc_call max_retries e h1 he h5
    unfold call_with_retry
    rw [List.range_eq_range']
    exact retryGo_nonretriable rpc_call max_retries max_retries 0 e h1 he h5

/-- C7, witness: concrete runs exercising the three retry behaviours. -/
theorem call_with_retry_spec_witness :
    call_with_retry (fun i => if i < 2 then Except.error StatusCode.unavailable
      else Except.ok (42 : Nat)) 5 = (some (Except.ok 42), 3) ∧
    call_with_retry (fun _ => (Except.error StatusCode.unavailable : Except StatusCode Nat)) 4 =
      (some (Except.error StatusCode.unavailable), 4) ∧
    call_with_retry (fun _ => (Except.error StatusCode.notFound : Except StatusCode Nat)) 5 =
      (some (Except.error StatusCode.notFound), 1) := by
  refine ⟨?_, ?_, ?_⟩
  · exact (call_with_retry_spec Nat).1 _ 5 3 42 (by omega) (by omega)
      (fun i hi => by interval_cases i <;> rfl) rfl
  · exact (call_with_retry_spec Nat).2.1 _ 4 (by omega) (fun i hi => rfl)
  · exact (call_with_retry_spec Nat).2.2 _ 5 StatusCode.notFound (by omega)
      (by decide) rfl

/-! ### Helper lemmas: the seeder's name-to-id map -/

theorem mapLookup_nil (k : String) : mapLookup [] k = none := rfl

theorem mapLookup_cons (p : String × String) (m : List (String × String)) (k : String) :
    mapLookup (p :: m) k = if p.1 = k then some p.2 else mapLookup m k := by
  by_cases h : p.1 = k <;> simp [mapLookup, List.find?_cons, h]

theorem mapLookup_mapInsert_self (m : List (String × String)) (k v : String) :
    mapLookup (mapInsert m k v) k = some v := by
  induction m with
  | nil => simp [mapInsert, mapLookup_cons]
  | cons p rest ih =>
    unfold mapInsert
    by_cases h : p.1 = k
    · simp [h, mapLookup_cons]
    · simp [h, mapLookup_cons, ih]

theorem mapLookup_mapInsert_ne (m : List (String × String)) (k v k2 : String)
    (h : k2 ≠ k) : mapLookup (mapInsert m k v) k2 = mapLookup m k2 := by
  have hk : ¬ k = k2 := fun hh => h hh.symm
  induction m with
  | nil => simp [mapInsert, mapLookup_cons, mapLookup_nil, hk]
  | cons p rest ih =>
    unfold mapInsert
    by_cases hp : p.1 = k
    · simp [hp, mapLookup_cons, hk]
    · simp [hp, mapLookup_cons, ih]

theorem mapLookup_mapInsert_inv (m : List (String × String)) (k v k2 v2 : String)
    (h : mapLookup (mapInsert m k v) k2 = some v2) :
    (k2 = k ∧ v2 = v) ∨ (k2 ≠ k ∧ mapLookup m k2 = some v2) := by
  by_cases hk : k2 = k
  · subst hk
    rw [mapLookup_mapInsert_self] at h
    exact Or.inl ⟨rfl, (Option.some_inj.mp h).symm⟩
  · rw [mapLookup_mapInsert_ne _ _ _ _ hk] at h
    exact Or.inr ⟨hk, h⟩

theorem mapLookup_mapInsert_isSome (m : List (String × String)) (k v k2 : String)
    (h : (mapLookup m k2).isSome) : (mapLookup (mapInsert m k v) k2).isSome := by
  by_cases hk : k2 = k
  · subst hk
    rw [mapLookup_mapInsert_self]
    rfl
  · rw [mapLookup_mapInsert_ne _ _ _ _ hk]
    exact h

theorem mapConsistent_nil (g : List Term) : mapConsistent [] g := by
  intro k v h
  simp [mapLookup] at h

theorem mapConsistent_insert (m : List (String × String)) (g : List Term)
    (k v : String) (hm : mapConsistent m g) (t : Term) (ht : t ∈ g)
    (htn : t.name = k) (hti : t.id = v) : mapConsistent (mapInsert m k v) g := by
  intro k2 v2 h
  rcases mapLookup_mapInsert_inv m k v k2 v2 h with ⟨hk, hv⟩ | ⟨_, h2⟩
  · subst hk
    subst hv
    exact ⟨t, ht, htn, hti⟩
  · exact hm k2 v2 h2

theorem mapConsistent_mono (m : List (String × String)) (g ext : List Term)
    (hm : mapConsistent m g) : mapConsistent m (g ++ ext) := by
  intro k v h
  obtain ⟨t, ht, h1, h2⟩ := hm k v h
  exact ⟨t, List.mem_append_left _ ht, h1, h2⟩

/-! ### Helper lemmas: glossary AddTerm and GetTermByName -/

theorem AddTerm_ok_inv (st : List Term) (new_id name defn : String) (t : Term)
    (st2 : List Term)
    (h : GlossaryServicer.AddTerm st new_id name defn = (Except.ok t, st2)) :
    t = ⟨new_id, name, defn⟩ ∧ st2 = st ++ [t] ∧ name ≠ "" ∧ defn ≠ "" ∧
    ∀ u ∈ st, u.id ≠ new_id ∧ u.name ≠ name := by
  unfold GlossaryServicer.AddTerm at h
  by_cases h1 : name = "" ∨ defn = ""
  · rw [if_pos h1] at h
    simp at h
  · rw [if_neg h1] at h
    by_cases h2 : st.any (fun u => u.id == new_id || u.name == name) = true
    · rw [if_pos h2] at h
      simp at h
    · rw [if_neg h2] at h
      simp only [Prod.mk.injEq, Except.ok.injEq] at h
      obtain ⟨hn, hd⟩ := not_or.mp h1
      simp only [List.any_eq_true, Bool.or_eq_true, beq_iff_eq, not_exists, not_and,
        not_or] at h2
      refine ⟨h.1.symm, ?_, hn, hd, fun u hu => h2 u hu⟩
      rw [← h.2, h.1]

theorem AddTerm_error_inv (st : List Term) (new_id name defn : String)
    (e : StatusCode) (st2 : List Term)
    (h : GlossaryServicer.AddTerm st new_id name defn = (Except.error e, st2)) :
    st2 = st ∧ (e = StatusCode.alreadyExists → name ≠ "" ∧ defn ≠ "" ∧
      ∃ u ∈ st, u.id = new_id ∨ u.name = name) := by
  unfold GlossaryServicer.AddTerm at h
  by_cases h1 : name = "" ∨ defn = ""
  · rw [if_pos h1] at h
    simp only [Prod.mk.injEq, Except.error.injEq] at h
    refine ⟨h.2.symm, fun he => ?_⟩
    rw [← h.1] at he
    exact absurd he (by decide)
  · rw [if_neg h1] at h
    by_cases h2 : st.any (fun u => u.id == new_id || u.name == name) = true
    · rw [if_pos h2] at h
      simp only [Prod.mk.injEq, Except.error.injEq] at h
      obtain ⟨hn, hd⟩ := not_or.mp h1
      simp only [List.any_eq_true, Bool.or_eq_true, beq_iff_eq] at h2
      exact ⟨h.2.symm, fun _ => ⟨hn, hd, h2⟩⟩
    · rw [if_neg h2] at h
      simp at h

theorem AddTerm_dup (st : List Term) (new_id name defn : String)
    (hn : name ≠ "") (hd : defn ≠ "") (hex : ∃ u ∈ st, u.name = name) :
    GlossaryServicer.AddTerm st new_id name defn =
      (Except.error StatusCode.alreadyExists, st) := by
  have hany : st.any (fun u => u.id == new_id || u.name == name) = true := by
    obtain ⟨u, hu, hun⟩ := hex
    refine List.any_eq_true.mpr ⟨u, hu, ?_⟩
    simp [hun]
  unfold GlossaryServicer.AddTerm
  rw [if_neg (not_or.mpr ⟨hn, hd⟩), if_pos hany]

theorem GetTermByName_ok_inv (st : List Term) (name : String) (t : Term)
    (h : GlossaryServicer.GetTermByName st name = Except.ok t) :
    t ∈ st ∧ t.name = name := by
  unfold GlossaryServicer.GetTermByName at h
  by_cases h1 : name = ""
  · rw [if_pos h1] at h
    exact Except.noConfusion h
  · rw [if_neg h1] at h
    cases hf : st.find? (fun u => u.name == name) with
    | none =>
      rw [hf] at h
      exact Except.noConfusion h
    | some u =>
      rw [hf] at h
      injection h with h2
      subst h2
      refine ⟨List.mem_of_find?_eq_some hf, ?_⟩
      have hp := List.find?_some hf
      simpa using hp

theorem find_name_exists (st : List Term) (name : String)
    (hex : ∃ u ∈ st, u.name = name) :
    ∃ t, st.find? (fun u => u.name == name) = some t := by
  have hs : (st.find? (fun u => u.name == name)).isSome := by
    rw [List.find?_isSome]
    obtain ⟨u, hu, hun⟩ := hex
    exact ⟨u, hu, by simp [hun]⟩
  exact Option.isSome_iff_exists.mp hs

theorem GetTermByName_found (st : List Term) (name : String) (t : Term)
    (hn : name ≠ "") (hf : st.find? (fun u => u.name == name) = some t) :
    GlossaryServicer.GetTermByName st name = Except.ok t := by
  unfold GlossaryServicer.GetTermByName
  rw [if_neg hn, hf]

/-! ### Helper lemmas: graph AddRelationship -/

theorem AddRelationship_ok_inv (st : List Relationship) (f t : String) (k : Nat)
    (b : Bool) (st2 : List Relationship)
    (h : GraphServicer.AddRelationship st f t k = (Except.ok b, st2)) :
    st2 = st ++ [⟨f, t, k⟩] ∧ f ≠ "" ∧ t ≠ "" ∧ f ≠ t := by
  unfold GraphServicer.AddRelationship at h
  by_cases h1 : f = "" ∨ t = ""
  · rw [if_pos h1] at h
    simp at h
  · rw [if_neg h1] at h
    by_cases h2 : f = t
    · rw [if_pos h2] at h
      simp at h
    · rw [if_neg h2] at h
      by_cases h3 : st.any (fun r =>
          r.from_term_id == f && r.to_term_id == t && r.type == k) = true
      · rw [if_pos h3] at h
        simp at h
      · rw [if_neg h3] at h
        simp only [Prod.mk.injEq] at h
        obtain ⟨hn1, hn2⟩ := not_or.mp h1
        exact ⟨h.2.symm, hn1, hn2, h2⟩

theorem AddRelationship_error_inv (st : List Relationship) (f t : String) (k : Nat)
    (e : StatusCode) (st2 : List Relationship)
    (h : GraphServicer.AddRelationship st f t k = (Except.error e, st2)) :
    st2 = st ∧ (e = StatusCode.alreadyExists → f ≠ "" ∧ t ≠ "" ∧ f ≠ t ∧
      ∃ r ∈ st, r.from_term_id = f ∧ r.to_term_id = t ∧ r.type = k) := by
  unfold GraphServicer.AddRelationship at h
  by_cases h1 : f = "" ∨ t = ""
  · rw [if_pos h1] at h
    simp only [Prod.mk.injEq, Except.error.injEq] at h
    refine ⟨h.2.symm, fun he => ?_⟩
    rw [← h.1] at he
    exact absurd he (by decide)
  · rw [if_neg h1] at h
    by_cases h2 : f = t
    · rw [if_pos h2] at h
      simp only [Prod.mk.injEq, Except.error.injEq] at h
      refine ⟨h.2.symm, fun he => ?_⟩
      rw [← h.1] at he
      exact absurd he (by decide)
    · rw [if_neg h2] at h
      by_cases h3 : st.any (fun r =>
          r.from_term_id == f && r.to_term_id == t && r.type == k) = true
      · rw [if_pos h3] at h
        simp only [Prod.mk.injEq, Except.error.injEq] at h
        obtain ⟨hn1, hn2⟩ := not_or.mp h1
        simp only [List.any_eq_true, Bool.and_eq_true, beq_iff_eq] at h3
        obtain ⟨r, hr, ⟨hra, hrb⟩, hrc⟩ := h3
        exact ⟨h.2.symm, fun _ => ⟨hn1, hn2, h2, r, hr, hra, hrb, hrc⟩⟩
      · rw [if_neg h3] at h
        simp at h

theorem AddRelationship_dup (st : List Relationship) (f t : String) (k : Nat)
    (h1 : f ≠ "") (h2 : t ≠ "") (h3 : f ≠ t)
    (hex : ∃ r ∈ st, r.from_term_id = f ∧ r.to_term_id = t ∧ r.type = k) :
    GraphServicer.AddRelationship st f t k =
      (Except.error StatusCode.alreadyExists, st) := by
  have hany : st.any (fun r =>
      r.from_term_id == f && r.to_term_id == t && r.type == k) = true := by
    obtain ⟨r, hr, ha, hb, hc⟩ := hex
    refine List.any_eq_true.mpr ⟨r, hr, ?_⟩
    simp [ha, hb, hc]
  unfold GraphServicer.AddRelationship
  rw [if_neg (not_or.mpr ⟨h1, h2⟩), if_neg h3, if_pos hany]

/-! ### Helper lemmas: one seeder step -/

theorem seedTerm_ok_inv (gw : World) (supply : Nat → String) (c : Nat)
    (m : List (String × String)) (name defn : String) (gwa : World)
    (ma : List (String × String)) (ca : Nat)
    (h : seedTerm gw supply c m name defn = Except.ok (gwa, ma, ca)) :
    name ≠ "" ∧ defn ≠ "" ∧ ca = c + 1 ∧ gwa.graph = gw.graph ∧
    (∃ ext, gwa.glossary = gw.glossary ++ ext) ∧
    (∃ v, ma = mapInsert m name v ∧ ∃ t ∈ gwa.glossary, t.name = name ∧ t.id = v) ∧
    ((gw.glossary.map (fun t => t.name)).Nodup →
      (gwa.glossary.map (fun t => t.name)).Nodup) := by
  unfold seedTerm at h
  cases hAT : GlossaryServicer.AddTerm gw.glossary (supply c) name defn with
  | mk r1 st2 =>
    rw [hAT] at h
    cases r1 with
    | ok new_term =>
      obtain ⟨hterm, hst2, hn, hd, hfresh⟩ := AddTerm_ok_inv _ _ _ _ _ _ hAT
      injection h with h2
      simp only [Prod.mk.injEq] at h2
      obtain ⟨hgw, hma, hca⟩ := h2
      refine ⟨hn, hd, hca.symm, by rw [← hgw], ?_, ?_, ?_⟩
      · exact ⟨[new_term], by rw [← hgw]; exact hst2⟩
      · refine ⟨new_term.id, hma.symm, new_term, ?_, ?_, rfl⟩
        · rw [← hgw]
          show new_term ∈ st2
          rw [hst2]
          exact List.mem_append_right _ (List.mem_singleton.mpr rfl)
        · rw [hterm]
      · intro hno
        rw [← hgw]
        show ((st2.map (fun t => t.name)).Nodup)
        rw [hst2, List.map_append]
        refine List.Nodup.append hno (List.nodup_singleton _) ?_
        intro x hx hmem
        rw [List.map_singleton, List.mem_singleton] at hmem
        subst hmem
        obtain ⟨u, hu, hun⟩ := List.mem_map.mp hx
        apply (hfresh u hu).2
        rw [hun, hterm]
    | error e =>
      replace h : (if e = StatusCode.alreadyExists then
          match GlossaryServicer.GetTermByName gw.glossary name with
          | Except.ok existing_term =>
            Except.ok (gw, mapInsert m name existing_term.id, c + 1)
          | Except.error e2 => Except.error e2
        else Except.error e) = Except.ok (gwa, ma, ca) := h
      by_cases he : e = StatusCode.alreadyExists
      · rw [if_pos he] at h
        cases hGBN : GlossaryServicer.GetTermByName gw.glossary name with
        | ok existing =>
          rw [hGBN] at h
          injection h with h2
          simp only [Prod.mk.injEq] at h2
          obtain ⟨hgw, hma, hca⟩ := h2
          obtain ⟨hmem, hname⟩ := GetTermByName_ok_inv _ _ _ hGBN
          obtain ⟨_, himp⟩ := AddTerm_error_inv _ _ _ _ _ _ hAT
          obtain ⟨hn, hd, _⟩ := himp he
          refine ⟨hn, hd, hca.symm, by rw [← hgw], ⟨[], by rw [← hgw]; simp⟩, ?_,
            fun hno => by rw [← hgw]; exact hno⟩
          exact ⟨existing.id, hma.symm, existing, by rw [← hgw]; exact hmem, hname, rfl⟩
        | error e2 =>
          rw [hGBN] at h
          exact Except.noConfusion h
      · rw [if_neg he] at h
        exact Except.noConfusion h

theorem seedRelationship_ok_inv (gw : World) (m : List (String × String))
    (f t k : String) (gwa : World)
    (h : seedRelationship gw m f t k = Except.ok gwa) :
    gwa.glossary = gw.glossary ∧ (∃ ext, gwa.graph = gw.graph ++ ext) ∧
    (∀ fid tid, mapLookup m f = some fid → mapLookup m t = some tid →
      fid ≠ "" → tid ≠ "" →
      fid ≠ tid ∧ ∃ r ∈ gwa.graph, r.from_term_id = fid ∧ r.to_term_id = tid ∧
        r.type = get_relationship_type_enum k) := by
  unfold seedRelationship at h
  cases hf : mapLookup m f with
  | none =>
    cases hmt : mapLookup m t with
    | none =>
      rw [hf, hmt] at h
      injection h with h2
      subst h2
      exact ⟨rfl, ⟨[], by simp⟩, fun fid tid hfid _ _ _ => Option.noConfusion hfid⟩
    | some tid0 =>
      rw [hf, hmt] at h
      injection h with h2
      subst h2
      exact ⟨rfl, ⟨[], by simp⟩, fun fid tid hfid _ _ _ => Option.noConfusion hfid⟩
  | some fid0 =>
    cases hmt : mapLookup m t with
    | none =>
      rw [hf, hmt] at h
      injection h with h2
      subst h2
      exact ⟨rfl, ⟨[], by simp⟩, fun fid tid _ htid _ _ => Option.noConfusion htid⟩
    | some tid0 =>
      rw [hf, hmt] at h
      replace h : (if fid0 = "" ∨ tid0 = "" then Except.ok gw
          else match GraphServicer.AddRelationship gw.graph fid0 tid0
              (get_relationship_type_enum k) with
            | (Except.ok _, st2) => Except.ok { gw with graph := st2 }
            | (Except.error e, _) =>
              if e = StatusCode.alreadyExists then Except.ok gw
              else Except.error e) = Except.ok gwa := h
      by_cases hemp : fid0 = "" ∨ tid0 = ""
      · rw [if_pos hemp] at h
        injection h with h2
        subst h2
        refine ⟨rfl, ⟨[], by simp⟩, ?_⟩
        intro fid tid hfid htid hfe hte
        injection hfid with hfid2
        injection htid with htid2
        subst hfid2
        subst htid2
        rcases hemp with hh | hh
        · exact absurd hh hfe
        · exact absurd hh hte
      · rw [if_neg hemp] at h
        cases hAR : GraphServicer.AddRelationship gw.graph fid0 tid0
            (get_relationship_type_enum k) with
        | mk r1 st2 =>
          rw [hAR] at h
          cases r1 with
          | ok b =>
            obtain ⟨hst2, hne1, hne2, hnet⟩ := AddRelationship_ok_inv _ _ _ _ _ _ hAR
            injection h with h2
            refine ⟨by rw [← h2], ?_, ?_⟩
            · refine ⟨[⟨fid0, tid0, get_relationship_type_enum k⟩], ?_⟩
              rw [← h2]
              show st2 = gw.graph ++ _
              exact hst2
            · intro fid tid hfid htid hfe hte
              injection hfid with hfid2
              injection htid with htid2
              subst hfid2
              subst htid2
              refine ⟨hnet, ⟨fid0, tid0, get_relationship_type_enum k⟩, ?_, rfl, rfl, rfl⟩
              rw [← h2]
              show _ ∈ st2
              rw [hst2]
              exact List.mem_append_right _ (List.mem_singleton.mpr rfl)
          | error e =>
            replace h : (if e = StatusCode.alreadyExists then Except.ok gw
                else Except.error e) = Except.ok gwa := h
            by_cases he : e = StatusCode.alreadyExists
            · rw [if_pos he] at h
              injection h with h2
              subst h2
              obtain ⟨_, himp⟩ := AddRelationship_error_inv _ _ _ _ _ _ hAR
              obtain ⟨hne1, hne2, hnet, r, hrmem, hra, hrb, hrc⟩ := himp he
              refine ⟨rfl, ⟨[], by simp⟩, ?_⟩
              intro fid tid hfid htid hfe hte
              injection hfid with hfid2
              injection htid with htid2
              subst hfid2
              subst htid2
              exact ⟨hnet, r, hrmem, hra, hrb, hrc⟩
            · rw [if_neg he] at h
              exact Except.noConfusion h

/-! ### Helper lemmas: the two seeding phases -/

theorem seedTerms_sound (supply : Nat → String) :
    ∀ (ts : List (String × String)) (gw : World) (m : List (String × String)) (c : Nat)
      (gw2 : World) (m2 : List (String × String)) (c2 : Nat),
      seedTerms supply ts gw m c = Except.ok (gw2, m2, c2) →
      (∃ ext, gw2.glossary = gw.glossary ++ ext) ∧
      gw2.graph = gw.graph ∧
      (mapConsistent m gw.glossary → mapConsistent m2 gw2.glossary) ∧
      (∀ nd ∈ ts, nd.1 ≠ "" ∧ nd.2 ≠ "" ∧ (mapLookup m2 nd.1).isSome) ∧
      ((gw.glossary.map (fun t => t.name)).Nodup →
        (gw2.glossary.map (fun t => t.name)).Nodup) ∧
      (∀ k v, mapLookup m2 k = some v →
        mapLookup m k = some v ∨ k ∈ ts.map (fun nd => nd.1)) ∧
      (∀ k, (mapLookup m k).isSome → (mapLookup m2 k).isSome) ∧
      c2 = c + ts.length := by
  intro ts
  induction ts with
  | nil =>
    intro gw m c gw2 m2 c2 h
    injection h with h2
    simp only [Prod.mk.injEq] at h2
    obtain ⟨h3, h4, h5⟩ := h2
    subst h3
    subst h4
    subst h5
    exact ⟨⟨[], by simp⟩, rfl, fun hc => hc, by simp, fun hno => hno,
      fun k v hv => Or.inl hv, fun k hk => hk, by simp⟩
  | cons nd rest ih =>
    intro gw m c gw2 m2 c2 h
    unfold seedTerms at h
    cases hstep : seedTerm gw supply c m nd.1 nd.2 with
    | error e =>
      rw [hstep] at h
      exact Except.noConfusion h
    | ok trip =>
      obtain ⟨gwa, ma, ca⟩ := trip
      rw [hstep] at h
      replace h : seedTerms supply rest gwa ma ca = Except.ok (gw2, m2, c2) := h
      obtain ⟨hn, hd, hca, hgraph, ⟨ext1, hglos⟩, ⟨v, hma, t, htmem, htn, hti⟩, hnodup⟩ :=
        seedTerm_ok_inv _ _ _ _ _ _ _ _ _ hstep
      subst hma
      subst hca
      obtain ⟨⟨ext2, hglos2⟩, hgraph2, hcons2, hitems2, hnodup2, hdom2, hpres2, hc2⟩ :=
        ih gwa (mapInsert m nd.1 v) (c + 1) gw2 m2 c2 h
      refine ⟨⟨ext1 ++ ext2, by rw [hglos2, hglos, List.append_assoc]⟩,
        by rw [hgraph2, hgraph], ?_, ?_, ?_, ?_, ?_, ?_⟩
      · intro hcon
        apply hcons2
        have hconA : mapConsistent m gwa.glossary := by
          rw [hglos]
          exact mapConsistent_mono _ _ _ hcon
        exact mapConsistent_insert _ _ _ _ hconA t htmem htn hti
      · intro nd2 hnd2
        rcases List.mem_cons.mp hnd2 with hh | hh
        · subst hh
          refine ⟨hn, hd, ?_⟩
          apply hpres2
          rw [mapLookup_mapInsert_self]
          rfl
        · exact hitems2 nd2 hh
      · intro hno
        exact hnodup2 (hnodup hno)
      · intro k v2 hv2
        rcases hdom2 k v2 hv2 with hh | hh
        · rcases mapLookup_mapInsert_inv m nd.1 v k v2 hh with ⟨hk, _⟩ | ⟨_, hmk⟩
          · right
            rw [List.map_cons, hk]
            exact List.mem_cons_self _ _
          · left
            exact hmk
        · right
          rw [List.map_cons]
          exact List.mem_cons_of_mem _ hh
      · intro k hk
        exact hpres2 k (mapLookup_mapInsert_isSome m nd.1 v k hk)
      · rw [hc2]
        simp [List.length_cons]
        omega

theorem seedTerms_second (supply2 : Nat → String) :
    ∀ (ts : List (String × String)) (gw : World) (m : List (String × String)) (c : Nat),
      (∀ nd ∈ ts, nd.1 ≠ "" ∧ nd.2 ≠ "" ∧ ∃ t ∈ gw.glossary, t.name = nd.1) →
      ∃ m2, seedTerms supply2 ts gw m c = Except.ok (gw, m2, c + ts.length) ∧
        (mapConsistent m gw.glossary → mapConsistent m2 gw.glossary) ∧
        (∀ k v, mapLookup m2 k = some v →
          mapLookup m k = some v ∨ k ∈ ts.map (fun nd => nd.1)) ∧
        (∀ nd ∈ ts, (mapLookup m2 nd.1).isSome) ∧
        (∀ k, (mapLookup m k).isSome → (mapLookup m2 k).isSome) := by
  intro ts
  induction ts with
  | nil =>
    intro gw m c hcov
    exact ⟨m, by simp [seedTerms], fun hc => hc, fun k v hv => Or.inl hv, by simp,
      fun k hk => hk⟩
  | cons nd rest ih =>
    intro gw m c hcov
    obtain ⟨hn, hd, t0ex⟩ := hcov nd (List.mem_cons_self _ _)
    obtain ⟨t0, hfind⟩ := find_name_exists gw.glossary nd.1 t0ex
    have hAT : GlossaryServicer.AddTerm gw.glossary (supply2 c) nd.1 nd.2 =
        (Except.error StatusCode.alreadyExists, gw.glossary) :=
      AddTerm_dup _ _ _ _ hn hd t0ex
    have hGBN : GlossaryServicer.GetTermByName gw.glossary nd.1 = Except.ok t0 :=
      GetTermByName_found _ _ _ hn hfind
    have hstep : seedTerm gw supply2 c m nd.1 nd.2 =
        Except.ok (gw, mapInsert m nd.1 t0.id, c + 1) := by
      unfold seedTerm
      rw [hAT]
      replace hGBN := hGBN
      show (if StatusCode.alreadyExists = StatusCode.alreadyExists then
          match GlossaryServicer.GetTermByName gw.glossary nd.1 with
          | Except.ok existing_term =>
            Except.ok (gw, mapInsert m nd.1 existing_term.id, c + 1)
          | Except.error e2 => Except.error e2
        else Except.error StatusCode.alreadyExists) =
        Except.ok (gw, mapInsert m nd.1 t0.id, c + 1)
      rw [if_pos rfl, hGBN]
    obtain ⟨m2, hrec, hcons, hdom, hitems, hpres⟩ :=
      ih gw (mapInsert m nd.1 t0.id) (c + 1)
        (fun nd2 hnd2 => hcov nd2 (List.mem_cons_of_mem _ hnd2))
    obtain ⟨ht0mem, ht0name⟩ := GetTermByName_ok_inv _ _ _ hGBN
    refine ⟨m2, ?_, ?_, ?_, ?_, ?_⟩
    · unfold seedTerms
      rw [hstep]
      have harith : c + (nd :: rest).length = c + 1 + rest.length := by
        simp [List.length_cons]
        omega
      rw [harith]
      exact hrec
    · intro hc
      exact hcons (mapConsistent_insert _ _ _ _ hc t0 ht0mem ht0name rfl)
    · intro k v hv
      rcases hdom k v hv with hh | hh
      · rcases mapLookup_mapInsert_inv m nd.1 t0.id k v hh with ⟨hk, _⟩ | ⟨_, hmk⟩
        · right
          rw [List.map_cons, hk]
          exact List.mem_cons_self _ _
        · left
          exact hmk
      · right
        rw [List.map_cons]
        exact List.mem_cons_of_mem _ hh
    · intro nd2 hnd2
      rcases List.mem_cons.mp hnd2 with hh | hh
      · subst hh
        apply hpres
        rw [mapLookup_mapInsert_self]
        rfl
      · exact hitems nd2 hh
    · intro k hk
      exact hpres k (mapLookup_mapInsert_isSome m nd.1 t0.id k hk)

theorem seedRelationships_sound :
    ∀ (rs : List (String × String × String)) (gw : World)
      (m : List (String × String)) (gw3 : World),
      seedRelationships rs gw m = Except.ok gw3 →
      gw3.glossary = gw.glossary ∧
      (∃ ext, gw3.graph = gw.graph ++ ext) ∧
      (∀ x ∈ rs, ∀ fid tid, mapLookup m x.1 = some fid →
        mapLookup m x.2.1 = some tid → fid ≠ "" → tid ≠ "" →
        fid ≠ tid ∧ ∃ r ∈ gw3.graph, r.from_term_id = fid ∧ r.to_term_id = tid ∧
          r.type = get_relationship_type_enum x.2.2) := by
  intro rs
  induction rs with
  | nil =>
    intro gw m gw3 h
    injection h with h2
    subst h2
    exact ⟨rfl, ⟨[], by simp⟩, by simp⟩
  | cons x rest ih =>
    intro gw m gw3 h
    unfold seedRelationships at h
    cases hstep : seedRelationship gw m x.1 x.2.1 x.2.2 with
    | error e =>
      rw [hstep] at h
      exact Except.noConfusion h
    | ok gwa =>
      rw [hstep] at h
      replace h : seedRelationships rest gwa m = Except.ok gw3 := h
      obtain ⟨hglos, ⟨ext1, hgraph⟩, hhead⟩ := seedRelationship_ok_inv _ _ _ _ _ _ hstep
      obtain ⟨hglos2, ⟨ext2, hgraph2⟩, hrest⟩ := ih gwa m gw3 h
      refine ⟨by rw [hglos2, hglos],
        ⟨ext1 ++ ext2, by rw [hgraph2, hgraph, List.append_assoc]⟩, ?_⟩
      intro y hy fid tid h1 h2 h3 h4
      rcases List.mem_cons.mp hy with hh | hh
      · subst hh
        obtain ⟨hne, r, hrmem, hr1, hr2, hr3⟩ := hhead fid tid h1 h2 h3 h4
        refine ⟨hne, r, ?_, hr1, hr2, hr3⟩
        rw [hgraph2]
        exact List.mem_append_left _ hrmem
      · exact hrest y hh fid tid h1 h2 h3 h4

theorem seedRelationships_second :
    ∀ (rs : List (String × String × String)) (gw : World)
      (m : List (String × String)),
      (∀ x ∈ rs, ∀ fid tid, mapLookup m x.1 = some fid →
        mapLookup m x.2.1 = some tid → fid ≠ "" → tid ≠ "" →
        fid ≠ tid ∧ ∃ r ∈ gw.graph, r.from_term_id = fid ∧ r.to_term_id = tid ∧
          r.type = get_relationship_type_enum x.2.2) →
      seedRelationships rs gw m = Except.ok gw := by
  intro rs
  induction rs with
  | nil => intro gw m hyp; rfl
  | cons x rest ih =>
    intro gw m hyp
    have hstep : seedRelationship gw m x.1 x.2.1 x.2.2 = Except.ok gw := by
      unfold seedRelationship
      cases hf : mapLookup m x.1 with
      | none => cases hmt : mapLookup m x.2.1 <;> rfl
      | some fid0 =>
        cases hmt : mapLookup m x.2.1 with
        | none => rfl
        | some tid0 =>
          show (if fid0 = "" ∨ tid0 = "" then Except.ok gw
            else match GraphServicer.AddRelationship gw.graph fid0 tid0
                (get_relationship_type_enum x.2.2) with
              | (Except.ok _, st2) => Except.ok { gw with graph := st2 }
              | (Except.error e, _) =>
                if e = StatusCode.alreadyExists then Except.ok gw
                else Except.error e) = Except.ok gw
          by_cases hemp : fid0 = "" ∨ tid0 = ""
          · rw [if_pos hemp]
          · rw [if_neg hemp]
            obtain ⟨h3, h4⟩ := not_or.mp hemp
            obtain ⟨hne, hex⟩ := hyp x (List.mem_cons_self _ _) fid0 tid0 hf hmt h3 h4
            have hAR := AddRelationship_dup gw.graph fid0 tid0
              (get_relationship_type_enum x.2.2) h3 h4 hne hex
            rw [hAR]
            rfl
    unfold seedRelationships
    rw [hstep]
    exact ih gw m (fun y hy => hyp y (List.mem_cons_of_mem _ hy))

theorem name_unique (g : List Term) (hn : (g.map (fun t => t.name)).Nodup)
    (t1 t2 : Term) (h1 : t1 ∈ g) (h2 : t2 ∈ g) (he : t1.name = t2.name) :
    t1 = t2 := by
  induction g with
  | nil => cases h1
  | cons a rest ih =>
    rw [List.map_cons, List.nodup_cons] at hn
    obtain ⟨hna, hnr⟩ := hn
    rcases List.mem_cons.mp h1 with hh1 | hh1 <;> rcases List.mem_cons.mp h2 with hh2 | hh2
    · rw [hh1, hh2]
    · subst hh1
      exact absurd (List.mem_map.mpr ⟨t2, hh2, he.symm⟩) hna
    · subst hh2
      exact absurd (List.mem_map.mpr ⟨t1, hh1, he⟩) hna
    · exact ih hnr hh1 hh2

theorem maps_agree (g : List Term) (hn : (g.map (fun t => t.name)).Nodup)
    (m1 m2 : List (String × String)) (names : List String)
    (hc1 : mapConsistent m1 g) (hc2 : mapConsistent m2 g)
    (hd1 : ∀ k v, mapLookup m1 k = some v → k ∈ names)
    (hd2 : ∀ k v, mapLookup m2 k = some v → k ∈ names)
    (hcov1 : ∀ k ∈ names, (mapLookup m1 k).isSome)
    (hcov2 : ∀ k ∈ names, (mapLookup m2 k).isSome) :
    ∀ k, mapLookup m1 k = mapLookup m2 k := by
  intro k
  cases o1 : mapLookup m1 k with
  | none =>
    cases o2 : mapLookup m2 k with
    | none => rfl
    | some v2 =>
      have hk := hd2 k v2 o2
      have hs := hcov1 k hk
      rw [o1] at hs
      exact absurd hs (by simp)
  | some v1 =>
    cases o2 : mapLookup m2 k with
    | none =>
      have hk := hd1 k v1 o1
      have hs := hcov2 k hk
      rw [o2] at hs
      exact absurd hs (by simp)
    | some v2 =>
      obtain ⟨t1, ht1, hn1, hi1⟩ := hc1 k v1 o1
      obtain ⟨t2, ht2, hn2, hi2⟩ := hc2 k v2 o2
      have ht12 : t1 = t2 := name_unique g hn t1 t2 ht1 ht2 (by rw [hn1, hn2])
      rw [← hi1, ← hi2, ht12]

/-! ### Claim C8: idempotent seeding -/

/-- C8.  Per term: an ALREADY_EXISTS failure on create makes the seeder look
the term up by name and record the existing identifier instead of aborting,
while any other create failure aborts the run with that error.
Consequently, when a seeding run from a name-unique store succeeds, running
the identical seed sequence again over the resulting state succeeds with
zero hard failures and leaves the term and relationship sets exactly
unchanged. -/
theorem seeder_idempotent :
    (∀ (gw : World) (supply : Nat → String) (c : Nat) (m : List (String × String))
        (name defn : String) (st2 : List Term) (t : Term),
      GlossaryServicer.AddTerm gw.glossary (supply c) name defn =
          (Except.error StatusCode.alreadyExists, st2) →
      GlossaryServicer.GetTermByName gw.glossary name = Except.ok t →
      seedTerm gw supply c m name defn =
        Except.ok (gw, mapInsert m name t.id, c + 1)) ∧
    (∀ (gw : World) (supply : Nat → String) (c : Nat) (m : List (String × String))
        (name defn : String) (st2 : List Term) (e : StatusCode),
      GlossaryServicer.AddTerm gw.glossary (supply c) name defn =
          (Except.error e, st2) →
      e ≠ StatusCode.alreadyExists →
      seedTerm gw supply c m name defn = Except.error e) ∧
    (∀ (supply supply2 : Nat → String) (terms : List (String × String))
        (rels : List (String × String × String)) (w0 w1 : World) (c1 : Nat),
      (w0.glossary.map (fun t => t.name)).Nodup →
      run_seeder supply terms rels w0 0 = Except.ok (w1, c1) →
      run_seeder supply2 terms rels w1 0 = Except.ok (w1, terms.length)) := by
  refine ⟨?_, ?_, ?_⟩
  · intro gw supply c m name defn st2 t h1 h2
    unfold seedTerm
    rw [h1]
    show (if StatusCode.alreadyExists = StatusCode.alreadyExists then
        match GlossaryServicer.GetTermByName gw.glossary name with
        | Except.ok existing_term =>
          Except.ok (gw, mapInsert m name existing_term.id, c + 1)
        | Except.error e2 => Except.error e2
      else Except.error StatusCode.alreadyExists) =
      Except.ok (gw, mapInsert m name t.id, c + 1)
    rw [if_pos rfl, h2]
  · intro gw supply c m name defn st2 e h1 hne
    unfold seedTerm
    rw [h1]
    show (if e = StatusCode.alreadyExists then
        match GlossaryServicer.GetTermByName gw.glossary name with
        | Except.ok existing_term =>
          Except.ok (gw, mapInsert m name existing_term.id, c + 1)
        | Except.error e2 => Except.error e2
      else Except.error e) = Except.error e
    rw [if_neg hne]
  · intro supply supply2 terms rels w0 w1 c1 hnames h1
    unfold run_seeder at h1
    cases hT : seedTerms supply terms w0 [] 0 with
    | error e =>
      rw [hT] at h1
      exact Except.noConfusion h1
    | ok trip =>
      obtain ⟨gwA, mA, cA⟩ := trip
      rw [hT] at h1
      replace h1 : (match seedRelationships rels gwA mA with
        | Except.ok gw4 => Except.ok (gw4, cA)
        | Except.error e => Except.error e) = Except.ok (w1, c1) := h1
      cases hR : seedRelationships rels gwA mA with
      | error e =>
        rw [hR] at h1
        exact Except.noConfusion h1
      | ok gw3 =>
        rw [hR] at h1
        injection h1 with h1b
        simp only [Prod.mk.injEq] at h1b
        obtain ⟨hw1, hc1⟩ := h1b
        subst hw1
        obtain ⟨⟨extT, hglosT⟩, hgraphT, hconsT, hitemsT, hnodupT, hdomT, hpresT, hcT⟩ :=
          seedTerms_sound supply terms w0 [] 0 gwA mA cA hT
        obtain ⟨hglosR, ⟨extR, hgraphR⟩, hheadR⟩ :=
          seedRelationships_sound rels gwA mA gw3 hR
        have hconsA : mapConsistent mA gwA.glossary := hconsT (mapConsistent_nil _)
        have hnodupA : (gwA.glossary.map (fun t => t.name)).Nodup := hnodupT hnames
        have hcov : ∀ nd ∈ terms, nd.1 ≠ "" ∧ nd.2 ≠ "" ∧
            ∃ t ∈ gw3.glossary, t.name = nd.1 := by
          intro nd hnd
          obtain ⟨hn, hd, hsome⟩ := hitemsT nd hnd
          obtain ⟨v, hv⟩ := Option.isSome_iff_exists.mp hsome
          obtain ⟨t, htmem, htn, hti⟩ := hconsA nd.1 v hv
          exact ⟨hn, hd, t, by rw [hglosR]; exact htmem, htn⟩
        obtain ⟨m2, hT2, hcons2, hdom2, hitems2, hpres2⟩ :=
          seedTerms_second supply2 terms gw3 [] 0 hcov
        have hcons2a : mapConsistent m2 gwA.glossary := by
          have hm2 := hcons2 (mapConsistent_nil _)
          rw [hglosR] at hm2
          exact hm2
        have hagree : ∀ k, mapLookup mA k = mapLookup m2 k := by
          apply maps_agree gwA.glossary hnodupA mA m2 (terms.map (fun nd => nd.1))
            hconsA hcons2a
          · intro k v hv
            rcases hdomT k v hv with hh | hh
            · exact absurd hh (by simp [mapLookup])
            · exact hh
          · intro k v hv
            rcases hdom2 k v hv with hh | hh
            · exact absurd hh (by simp [mapLookup])
            · exact hh
          · intro k hk
            obtain ⟨nd, hnd, hknd⟩ := List.mem_map.mp hk
            rw [← hknd]
            exact (hitemsT nd hnd).2.2
          · intro k hk
            obtain ⟨nd, hnd, hknd⟩ := List.mem_map.mp hk
            rw [← hknd]
            exact hitems2 nd hnd
        have hrel2 : ∀ x ∈ rels, ∀ fid tid, mapLookup m2 x.1 = some fid →
            mapLookup m2 x.2.1 = some tid → fid ≠ "" → tid ≠ "" →
            fid ≠ tid ∧ ∃ r ∈ gw3.graph, r.from_term_id = fid ∧ r.to_term_id = tid ∧
              r.type = get_relationship_type_enum x.2.2 := by
          intro x hx fid tid h1f h2f h3f h4f
          rw [← hagree x.1] at h1f
          rw [← hagree x.2.1] at h2f
          exact hheadR x hx fid tid h1f h2f h3f h4f
        have hR2 := seedRelationships_second rels gw3 m2 hrel2
        unfold run_seeder
        rw [hT2]
        show (match seedRelationships rels gw3 m2 with
          | Except.ok gw4 => Except.ok (gw4, 0 + terms.length)
          | Except.error e => Except.error e) = Except.ok (gw3, terms.length)
        rw [hR2, Nat.zero_add]

/-- The uuid supply used by the concrete seeding witness. -/
def wsupply : Nat → String := fun n =>
  (["u1", "u2", "u3", "u4", "u5", "u6", "u7"].getD n "u0")

/-- The backend state produced by one seeding run from empty stores. -/
def seededWorld : World :=
  match run_seeder wsupply SEED_TERMS SEED_RELATIONSHIPS ⟨[], []⟩ 0 with
  | Except.ok p => p.1
  | Except.error _ => ⟨[], []⟩

/-- C8, witness: the concrete seed data runs to completion from empty
stores, and a second identical run reproduces the same state with zero
hard failures. -/
theorem seeder_idempotent_witness :
    run_seeder wsupply SEED_TERMS SEED_RELATIONSHIPS ⟨[], []⟩ 0 =
      Except.ok (seededWorld, 7) ∧
    run_seeder wsupply SEED_TERMS SEED_RELATIONSHIPS seededWorld 0 =
      Except.ok (seededWorld, 7) := by
  have h1 : run_seeder wsupply SEED_TERMS SEED_RELATIONSHIPS ⟨[], []⟩ 0 =
      Except.ok (seededWorld, 7) := by rfl
  refine ⟨h1, ?_⟩
  exact (seeder_idempotent.2.2) wsupply wsupply SEED_TERMS SEED_RELATIONSHIPS
    ⟨[], []⟩ seededWorld 7 (by simp) h1
